import Mathlib

/-!
Shallow embedding of the revproxyry reverse proxy (Parquery/revproxyry).

The repository source concatenates two revisions of the main program.  The
current revision delegates credential checking to a small auth package that is
not part of the snapshot; the older revision contains the same logic inline
(the credential loop in authHandler.ServeHTTP and the needsAuth computation in
setupRouter).  Both revisions share the path handling of fileServer.ServeHTTP,
the validate function of the configuration package, the redirection router and
the logging response writer, which are embedded below directly from the source.

Machine strings are modelled by Lean String; the character level operations of
the Go standard library that the program uses (strings.Split, path.Clean,
path.Join) are embedded as structurally recursive functions on the underlying
character lists.  External cryptographic primitives (bcrypt, the apr1 md5
password parser) are parameters of the embedding, since they live outside this
repository.
-/

namespace Revproxyry

/-- A path segment: the characters between two separators. -/
abbrev Seg := List Char

/-- Splitting a character list at every occurrence of a separator character;
this embeds Go strings.Split (the result is never empty, and joining the
chunks with the separator restores the input). -/
def splitOnChar (sep : Char) : List Char → List Seg
  | [] => [[]]
  | c :: cs =>
    let r := splitOnChar sep cs
    if c = sep then [] :: r
    else (c :: r.headD []) :: r.tail

/-- Joining segments with a separator character, embedding strings.Join. -/
def joinSeg (sep : Char) : List Seg → List Char
  | [] => []
  | s :: rest =>
    match rest with
    | [] => s
    | _ :: _ => s ++ sep :: joinSeg sep rest

theorem splitOnChar_ne_nil (sep : Char) (l : List Char) : splitOnChar sep l ≠ [] := by
  cases l with
  | nil => simp [splitOnChar]
  | cons c cs =>
    simp only [splitOnChar]
    by_cases h : c = sep <;> simp [h]

theorem splitOnChar_cons_sep (sep : Char) (cs : List Char) :
    splitOnChar sep (sep :: cs) = [] :: splitOnChar sep cs := by
  simp [splitOnChar]

theorem splitOnChar_cons_ne (sep c : Char) (cs : List Char) (h : c ≠ sep)
    (s0 : Seg) (r0 : List Seg) (hh : splitOnChar sep cs = s0 :: r0) :
    splitOnChar sep (c :: cs) = (c :: s0) :: r0 := by
  simp [splitOnChar, h, hh]

theorem splitOnChar_sep_free (sep : Char) (l : List Char) :
    ∀ s ∈ splitOnChar sep l, sep ∉ s := by
  induction l with
  | nil =>
    intro s hs
    have : s = [] := by simpa [splitOnChar] using hs
    simp [this]
  | cons c cs ih =>
    intro s hs
    rcases hh : splitOnChar sep cs with _ | ⟨s0, r0⟩
    · exact absurd hh (splitOnChar_ne_nil sep cs)
    by_cases h : c = sep
    · subst h
      rw [splitOnChar_cons_sep] at hs
      rcases List.mem_cons.mp hs with hs1 | hs1
      · simp [hs1]
      · exact ih s hs1
    · rw [splitOnChar_cons_ne sep c cs h s0 r0 hh] at hs
      rcases List.mem_cons.mp hs with hs1 | hs1
      · subst hs1
        intro hmem
        rcases List.mem_cons.mp hmem with hc | hc
        · exact h hc.symm
        · exact ih s0 (by rw [hh]; exact List.mem_cons_self s0 r0) hc
      · exact ih s (by rw [hh]; exact List.mem_cons_of_mem s0 hs1)

theorem splitOnChar_of_sep_free (sep : Char) (l : List Char) (h : sep ∉ l) :
    splitOnChar sep l = [l] := by
  induction l with
  | nil => simp [splitOnChar]
  | cons c cs ih =>
    have hc : c ≠ sep := fun hh => h (by simp [hh])
    have hcs : sep ∉ cs := fun hh => h (List.mem_cons_of_mem c hh)
    simp [splitOnChar, hc, ih hcs]

theorem splitOnChar_append (sep : Char) (a b : List Char) :
    splitOnChar sep (a ++ sep :: b) = splitOnChar sep a ++ splitOnChar sep b := by
  induction a with
  | nil => simp [splitOnChar]
  | cons c a' ih =>
    rcases hh : splitOnChar sep a' with _ | ⟨s0, r0⟩
    · exact absurd hh (splitOnChar_ne_nil sep a')
    by_cases h : c = sep
    · subst h
      rw [List.cons_append, splitOnChar_cons_sep, splitOnChar_cons_sep, ih, List.cons_append]
    · have hih : splitOnChar sep (a' ++ sep :: b) = (s0 :: r0) ++ splitOnChar sep b := by
        rw [ih, hh]
      rw [List.cons_append,
        splitOnChar_cons_ne sep c _ h s0 (r0 ++ splitOnChar sep b) (by simpa using hih),
        splitOnChar_cons_ne sep c a' h s0 r0 hh, List.cons_append]

theorem splitOnChar_joinSeg (sep : Char) (l : List Seg) (hfree : ∀ s ∈ l, sep ∉ s)
    (hne : l ≠ []) : splitOnChar sep (joinSeg sep l) = l := by
  induction l with
  | nil => exact absurd rfl hne
  | cons s rest ih =>
    cases rest with
    | nil =>
      simp only [joinSeg]
      exact splitOnChar_of_sep_free sep s (hfree s (List.mem_cons_self s []))
    | cons t r =>
      have hstep : joinSeg sep (s :: t :: r) = s ++ sep :: joinSeg sep (t :: r) := rfl
      rw [hstep, splitOnChar_append,
        splitOnChar_of_sep_free sep s (hfree s (List.mem_cons_self s (t :: r))),
        ih (fun x hx => hfree x (List.mem_cons_of_mem s hx)) (by simp)]
      rfl

/-- One step of the segment scan of Go path.Clean on a rooted path: empty
segments (consecutive slashes) and single dots are dropped, a double dot pops
the previously kept segment (or is dropped at the root), and every other
segment is kept. -/
def cleanStep (acc : List Seg) (s : Seg) : List Seg :=
  if s = [] then acc
  else if s = ['.'] then acc
  else if s = ['.', '.'] then acc.dropLast
  else acc ++ [s]

/-- The segment scan of Go path.Clean on a rooted path. -/
def cleanSegs (l : List Seg) : List Seg := l.foldl cleanStep []

/-- The segments of a path string, split at every slash. -/
def segsOf (p : String) : List Seg := splitOnChar '/' p.data

/-- Rendering segments as a rooted path: a leading slash followed by the
segments joined with slashes; the empty segment list renders as the bare
slash, exactly as Go path.Clean returns for a rooted path that cleans away. -/
def renderRooted (l : List Seg) : String := ⟨'/' :: joinSeg '/' l⟩

/-- Go path.Clean restricted to rooted paths (the only inputs the program
cleans: fileServer.ServeHTTP forces a leading slash before cleaning, and the
argument of the final join starts with the rooted configured root). -/
def cleanRooted (p : String) : String := renderRooted (cleanSegs (segsOf p))

/-- Embeds strings.HasPrefix(s, "/"). -/
def startsWithSlash (s : String) : Bool := s.data.headD ' ' == '/'

/-- Go path.Join for the use in fileServer.ServeHTTP, where both elements are
nonempty and the first is rooted: the elements joined with a slash, cleaned. -/
def pathJoin (a b : String) : String := cleanRooted (a ++ ("/") ++ b)

/-- The filesystem path opened by fileServer.ServeHTTP for a request path:
the request path is given a leading slash if it lacks one, cleaned, and then
joined under the configured root (filepath.FromSlash is the identity on the
Unix targets the program is built for). -/
def fileServerPath (root urlPath : String) : String :=
  let upath := if startsWithSlash urlPath then urlPath else ("/") ++ urlPath
  let upath := cleanRooted upath
  pathJoin root upath

/-- A segment kept by the clean scan: nonempty, no dot or double-dot, and
free of the separator. -/
def goodSeg (s : Seg) : Prop := s ≠ [] ∧ s ≠ ['.'] ∧ s ≠ ['.', '.'] ∧ '/' ∉ s

theorem goodSeg_cleanStep {acc : List Seg} {s : Seg}
    (hacc : ∀ t ∈ acc, goodSeg t) (hs : '/' ∉ s) :
    ∀ t ∈ cleanStep acc s, goodSeg t := by
  intro t ht
  unfold cleanStep at ht
  by_cases h1 : s = []
  · rw [if_pos h1] at ht; exact hacc t ht
  rw [if_neg h1] at ht
  by_cases h2 : s = ['.']
  · rw [if_pos h2] at ht; exact hacc t ht
  rw [if_neg h2] at ht
  by_cases h3 : s = ['.', '.']
  · rw [if_pos h3] at ht
    exact hacc t (List.dropLast_subset acc ht)
  · rw [if_neg h3] at ht
    rcases List.mem_append.mp ht with ht1 | ht1
    · exact hacc t ht1
    · have : t = s := by simpa using ht1
      subst this
      exact ⟨h1, h2, h3, hs⟩

theorem goodSeg_foldl {l : List Seg} {acc : List Seg}
    (hacc : ∀ t ∈ acc, goodSeg t) (hl : ∀ s ∈ l, '/' ∉ s) :
    ∀ t ∈ l.foldl cleanStep acc, goodSeg t := by
  induction l generalizing acc with
  | nil => simpa using hacc
  | cons s l' ih =>
    have := goodSeg_cleanStep hacc (hl s (List.mem_cons_self s l'))
    exact ih this (fun x hx => hl x (List.mem_cons_of_mem s hx))

theorem goodSeg_cleanSegs (p : String) : ∀ t ∈ cleanSegs (segsOf p), goodSeg t :=
  goodSeg_foldl (by simp) (splitOnChar_sep_free '/' p.data)

theorem foldl_cleanStep_of_good {l : List Seg} (acc : List Seg)
    (h : ∀ s ∈ l, s ≠ [] ∧ s ≠ ['.'] ∧ s ≠ ['.', '.']) :
    l.foldl cleanStep acc = acc ++ l := by
  induction l generalizing acc with
  | nil => simp
  | cons s l' ih =>
    obtain ⟨h1, h2, h3⟩ := h s (List.mem_cons_self s l')
    have hstep : cleanStep acc s = acc ++ [s] := by
      unfold cleanStep
      rw [if_neg h1, if_neg h2, if_neg h3]
    rw [List.foldl_cons, hstep, ih (acc ++ [s]) (fun x hx => h x (List.mem_cons_of_mem s hx))]
    simp

theorem segsOf_append_rooted (a b : String) :
    segsOf (a ++ ("/") ++ b) = segsOf a ++ splitOnChar '/' b.data := by
  unfold segsOf
  rw [String.data_append, String.data_append, List.append_assoc]
  exact splitOnChar_append '/' a.data b.data

theorem foldl_cleanStep_renderRooted (acc : List Seg) (l : List Seg)
    (hgood : ∀ t ∈ l, goodSeg t) :
    (splitOnChar '/' (renderRooted l).data).foldl cleanStep acc = acc ++ l := by
  have hdata : (renderRooted l).data = '/' :: joinSeg '/' l := rfl
  rw [hdata, splitOnChar_cons_sep]
  cases l with
  | nil => simp [joinSeg, splitOnChar, cleanStep]
  | cons s rest =>
    have hsplit : splitOnChar '/' (joinSeg '/' (s :: rest)) = s :: rest :=
      splitOnChar_joinSeg '/' (s :: rest) (fun t ht => (hgood t ht).2.2.2) (by simp)
    rw [hsplit, List.foldl_cons]
    have hstep : cleanStep acc [] = acc := by unfold cleanStep; simp
    rw [hstep]
    exact foldl_cleanStep_of_good acc (fun t ht => ⟨(hgood t ht).1, (hgood t ht).2.1, (hgood t ht).2.2.1⟩)

/-- The central computation for the traversal-containment claim: the path the
file server opens is the cleaned root segments extended by the cleaned request
segments. -/
theorem fileServerPath_eq (root p : String) :
    fileServerPath root p =
      renderRooted (cleanSegs (segsOf root) ++
        cleanSegs (segsOf (if startsWithSlash p then p else ("/") ++ p))) := by
  have hmain : ∀ up : String, cleanRooted (root ++ ("/") ++ cleanRooted up) =
      renderRooted (cleanSegs (segsOf root) ++ cleanSegs (segsOf up)) := by
    intro up
    have hgood : ∀ t ∈ cleanSegs (segsOf up), goodSeg t := goodSeg_cleanSegs up
    show renderRooted
        (cleanSegs (segsOf (root ++ ("/") ++ renderRooted (cleanSegs (segsOf up))))) =
      renderRooted (cleanSegs (segsOf root) ++ cleanSegs (segsOf up))
    congr 1
    rw [show segsOf (root ++ ("/") ++ renderRooted (cleanSegs (segsOf up))) =
          segsOf root ++ splitOnChar '/' (renderRooted (cleanSegs (segsOf up))).data from
        segsOf_append_rooted root (renderRooted (cleanSegs (segsOf up)))]
    show (segsOf root ++
        splitOnChar '/' (renderRooted (cleanSegs (segsOf up))).data).foldl cleanStep [] =
      cleanSegs (segsOf root) ++ cleanSegs (segsOf up)
    rw [List.foldl_append]
    exact foldl_cleanStep_renderRooted ((segsOf root).foldl cleanStep []) _ hgood
  exact hmain (if startsWithSlash p then p else ("/") ++ p)

/-- An authentication entry of the configuration: a user name (empty means no
authentication) and a password hash. -/
structure Auth where
  username : String
  passwordHash : String
deriving DecidableEq

/-- A route of the reverse proxy: a path prefix, a target (directory or URL)
and the identifiers of the authentications that may access it. -/
structure Route where
  pfx : String
  target : String
  authIDs : List String
deriving DecidableEq

/-- The parsed configuration file.  The Go map of authentications is modelled
as an association list. -/
structure Config where
  auths : List (String × Auth)
  domain : String
  routes : List Route
  sslKeyPath : String
  sslCertPath : String
  letsencryptDir : String
  httpAddress : String
  httpsAddress : String
deriving DecidableEq

/-- Lookup of an authentication identifier in the configuration map,
embedding cfg.Auths[authID] together with the comma-ok presence test. -/
def lookupAuth (cfg : Config) (id : String) : Option Auth :=
  (cfg.auths.find? (fun kv => kv.1 == id)).map (fun kv => kv.2)

/-- Embeds config.Validate (identical to the validate of the older revision):
returns the first error message, or none when the configuration is accepted.
The useSSL computation reproduces the source expression verbatim, including
its test of SslKeyPath against the empty string with an equality rather than
an inequality. -/
def validate (cfg : Config) : Option String :=
  match cfg.routes.findSome? (fun r =>
      r.authIDs.findSome? (fun id =>
        if (lookupAuth cfg id).isSome then none
        else some ("Auth could not be found in the list of auths for the Route with prefix "
          ++ r.pfx ++ ": " ++ id))) with
  | some e => some e
  | none =>
    if (cfg.sslCertPath != "" && cfg.sslKeyPath == "")
        || (cfg.sslCertPath == "" && cfg.sslKeyPath != "") then
      some ("either both SSL cert and key are empty, or none")
    else
      let useSSL := (cfg.sslCertPath != "" && cfg.sslKeyPath == "") || cfg.letsencryptDir != ""
      if cfg.letsencryptDir != "" && cfg.sslCertPath != "" then
        some ("both letsencrypt_dir and ssl_cert_path were specified in cfg")
      else if cfg.letsencryptDir != "" && cfg.domain == "" then
        some ("letsencrypt_dir was specified in cfg, but no domain")
      else if useSSL && cfg.httpsAddress == "" then
        some ("cfg needs to use SSL, but https_address was not specified")
      else if cfg.httpAddress == "" then
        some ("http_address was not specified in cfg")
      else none

/-- Stand-in for the value produced by parsing an apr1 md5 password hash in
the external htpasswd library; the embedding never inspects it. -/
structure Md5Parsed where
  raw : String
deriving DecidableEq

/-- The external cryptographic primitives the credential loop calls: the apr1
md5 hash parser of the htpasswd library (none models a parse error), its
password matcher, and bcrypt comparison (true models a nil error).  They live
outside this repository, so the embedding is parametric in them. -/
structure Crypto where
  md5Parse : String → Option Md5Parsed
  md5Match : Md5Parsed → String → Bool
  bcryptOk : String → String → Bool

/-- Embeds strings.HasPrefix(h, chr(36) ++ "apr1" ++ chr(36)), the test the
htpasswd library applies before parsing an md5 hash. -/
def isApr1 (h : String) : Bool := h.data.take 6 == ['$', 'a', 'p', 'r', '1', '$']

/-- Embeds htbasicauth.AcceptMd5: a hash without the apr1 marker yields a nil
parse and a nil error (ok none); a marked hash is parsed, yielding either the
parsed value or a parse error. -/
def acceptMd5 (cr : Crypto) (h : String) : Except Unit (Option Md5Parsed) :=
  if isApr1 h then
    match cr.md5Parse h with
    | some m => .ok (some m)
    | none => .error ()
  else .ok none

/-- Embeds the credential loop of authHandler.ServeHTTP: skip candidates whose
username differs from the submitted one; a hash parse failure is logged and the
loop continues; a parsed md5 hash is matched against the password; any other
hash is checked with bcrypt; the loop stops at the first success. -/
def authLoop (cr : Crypto) (u p : String) : List Auth → Bool
  | [] => false
  | a :: rest =>
    if u != a.username then authLoop cr u p rest
    else
      match acceptMd5 cr a.passwordHash with
      | .error _ => authLoop cr u p rest
      | .ok (some m) => if cr.md5Match m p then true else authLoop cr u p rest
      | .ok none => if cr.bcryptOk a.passwordHash p then true else authLoop cr u p rest

/-- One candidate credential accepts the submitted pair: equal username and a
password that verifies under the scheme selected by the hash marker, where a
hash that fails to parse accepts nothing. -/
def candidateOk (cr : Crypto) (u p : String) (a : Auth) : Bool :=
  u == a.username &&
    (if isApr1 a.passwordHash then
      match cr.md5Parse a.passwordHash with
      | some m => cr.md5Match m p
      | none => false
    else cr.bcryptOk a.passwordHash p)

/-- The observable outcome of one request through the auth decorator. -/
structure AuthOutcome where
  status : Option Nat
  challenge : Bool
  loggedError : Option String
  invoked : Bool
deriving DecidableEq

/-- Embeds authHandler.ServeHTTP: a request without basic credentials is
answered 401 with the challenge header and an error log record; rejected
credentials are answered the same way; only accepted credentials reach the
wrapped handler.  The log-record JSON encoding of the plain string and integer
fields never fails and is modelled as always succeeding. -/
def authServe (cr : Crypto) (auths : List Auth) (basic : Option (String × String)) :
    AuthOutcome :=
  match basic with
  | none =>
    { status := some 401, challenge := true, loggedError := some ("no auth"), invoked := false }
  | some (u, p) =>
    if authLoop cr u p auths then
      { status := none, challenge := false, loggedError := none, invoked := true }
    else
      { status := some 401, challenge := true,
        loggedError := some ("auth not accepted (user: " ++ u ++ ")"), invoked := false }

/-- The handler values setupRouter composes: the two dispatch targets, the
logging and auth decorators, the prefix-stripping wrapper and the synthesized
not-found fallback. -/
inductive Handler where
  | file (root : String)
  | proxy (url : String)
  | logging (pfx target : String) (inner : Handler)
  | authGate (auths : List Auth) (inner : Handler)
  | stripPfx (pfx : String) (inner : Handler)
  | notFound
deriving DecidableEq

/-- Embeds newFileServer: an empty root is an error. -/
def newFileServer (root : String) : Except String Handler :=
  if root == "" then .error ("unexpected empty root") else .ok (Handler.file root)

/-- Embeds the dispatch-kind switch of setupRouter.  The parseURI parameter
stands for url.ParseRequestURI of the Go standard library (none models a parse
error); the switch tests the leading slash first, so the parse result only
matters for targets without one. -/
def routeHandler (parseURI : String → Option String) (r : Route) : Except String Handler :=
  if startsWithSlash r.target then newFileServer r.target
  else
    match parseURI r.target with
    | some u => .ok (Handler.proxy u)
    | none => .error ("does not know how to handle the Route: " ++ r.target)

/-- The credentials the auth identifiers of a route resolve to, in configuration
order.  Validation (checked before the router is built) guarantees every
identifier is present in the map. -/
def resolvedAuths (cfg : Config) (r : Route) : List Auth :=
  r.authIDs.filterMap (lookupAuth cfg)

/-- Embeds the needsAuth computation of setupRouter: the route is wrapped in
the auth decorator exactly when some resolved credential has a nonempty
username.  (The current revision delegates this to auth.New and the Auths.All
field of the auth package, which the snapshot does not contain; the spec
describes the same condition.) -/
def needsAuth (cfg : Config) (r : Route) : Bool :=
  (resolvedAuths cfg r).any (fun a => a.username != "")

/-- Embeds the per-route body of the loop of setupRouter: pick the dispatch target,
wrap it in the logging decorator, wrap that in the auth decorator when needed,
and register it under the prefix of the route with prefix stripping. -/
def compileRoute (parseURI : String → Option String) (cfg : Config) (r : Route) :
    Except String (String × Handler) :=
  match routeHandler parseURI r with
  | .error e => .error e
  | .ok h =>
    let h := Handler.logging r.pfx r.target h
    let h := if needsAuth cfg r then Handler.authGate (resolvedAuths cfg r) h else h
    .ok (r.pfx, Handler.stripPfx r.pfx h)

/-- Embeds the loop of setupRouter over the configured routes: the registrations in
order, plus the handledRoot flag recording whether the prefix of some route is the
root. -/
def setupRouterLoop (parseURI : String → Option String) (cfg : Config) :
    List Route → Except String (List (String × Handler) × Bool)
  | [] => .ok ([], false)
  | r :: rest =>
    match compileRoute parseURI cfg r with
    | .error e => .error e
    | .ok entry =>
      match setupRouterLoop parseURI cfg rest with
      | .error e => .error e
      | .ok (regs, rooted) => .ok (entry :: regs, rooted || (r.pfx == "/"))

/-- Embeds setupRouter (current revision): compile every route, then register
the not-found fallback at the root pattern only when no route claimed it. -/
def setupRouter (parseURI : String → Option String) (cfg : Config) :
    Except String (List (String × Handler)) :=
  match setupRouterLoop parseURI cfg cfg.routes with
  | .error e => .error e
  | .ok (regs, rooted) =>
    .ok (regs ++ (if rooted then [] else [(("/"), Handler.notFound)]))

/-- Whether a compiled handler chain contains the auth decorator anywhere. -/
def mentionsAuthGate : Handler → Bool
  | Handler.logging _ _ inner => mentionsAuthGate inner
  | Handler.authGate _ _ => true
  | Handler.stripPfx _ inner => mentionsAuthGate inner
  | _ => false

/-- The response of the synthesized not-found fallback: status and the logged
error record. -/
structure SimpleOutcome where
  status : Nat
  loggedError : Option String
deriving DecidableEq

/-- Embeds the fallback closure setupRouter registers for unmatched paths. -/
def notFoundServe : SimpleOutcome :=
  { status := 404, loggedError := some ("not found") }

/-- Embeds strings.HasPrefix(s, ":"). -/
def startsWithColon (s : String) : Bool := s.data.headD ' ' == ':'

/-- Embeds strings.Split(host, ":")[0]: the first chunk of the Host header
split at colons. -/
def hostPart (host : String) : String := ⟨(splitOnChar ':' host.data).headD []⟩

/-- The observable outcome of one request through the redirection router. -/
structure RedirectOutcome where
  status : Nat
  redirectionURL : String
  loggedURL : String
deriving DecidableEq

/-- Embeds the closure of setupRedirectionRouter: when the configured HTTPS
address is a bare port, the destination is the own host of the request with that
port appended; otherwise the configured address literally; the request URI is
appended, the destination is logged and a permanent redirect is issued. -/
def redirectServe (httpsAddr host requestURI : String) : RedirectOutcome :=
  let pre :=
    if startsWithColon httpsAddr then ("https://") ++ hostPart host ++ httpsAddr
    else ("https://") ++ httpsAddr
  let newURL := pre ++ requestURI
  { status := 301, redirectionURL := newURL, loggedURL := newURL }

/-- One interaction of the wrapped handler with the intercepting response
writer: an explicit status write, or a body write (which in Go reaches the
embedded writer directly and bypasses the interceptor). -/
inductive WAction where
  | writeHeader (code : Nat)
  | write (body : String)
deriving DecidableEq

/-- Embeds loggingResponseWriter: the recorded status starts at 0 and is
updated only by explicit WriteHeader calls. -/
def recordedStatus (acts : List WAction) : Nat :=
  acts.foldl
    (fun st a =>
      match a with
      | WAction.writeHeader c => c
      | WAction.write _ => st)
    0

/-- The access-log record emitted by the logging decorator (the request fields
that are copied verbatim are omitted). -/
structure AccessRecord where
  pfx : String
  target : String
  err : String
  statusCode : Nat
deriving DecidableEq

/-- Embeds loggingHandler.ServeHTTP: run the wrapped handler against a fresh
intercepting writer, then emit one record carrying the recorded status. -/
def loggingServe (pfx target : String) (handlerActs : List WAction) : AccessRecord :=
  { pfx := pfx, target := target, err := "", statusCode := recordedStatus handlerActs }

theorem routeHandler_ok_base {parseURI : String → Option String} {r : Route} {h : Handler}
    (hh : routeHandler parseURI r = .ok h) : mentionsAuthGate h = false := by
  unfold routeHandler at hh
  by_cases hs : startsWithSlash r.target
  · rw [if_pos hs] at hh
    unfold newFileServer at hh
    by_cases he : r.target == ""
    · rw [if_pos he] at hh; exact absurd hh (by simp)
    · rw [if_neg he] at hh
      cases hh
      rfl
  · rw [if_neg hs] at hh
    cases hp : parseURI r.target with
    | some u => rw [hp] at hh; cases hh; rfl
    | none => rw [hp] at hh; exact absurd hh (by simp)

theorem compileRoute_ok_shape {parseURI : String → Option String} {cfg : Config} {r : Route}
    {e : String × Handler} (hc : compileRoute parseURI cfg r = .ok e) :
    ∃ hh, e = (r.pfx, Handler.stripPfx r.pfx hh) ∧ mentionsAuthGate hh = needsAuth cfg r := by
  unfold compileRoute at hc
  cases hr : routeHandler parseURI r with
  | error msg => rw [hr] at hc; exact absurd hc (by simp)
  | ok base =>
    rw [hr] at hc
    simp only [Except.ok.injEq] at hc
    by_cases hn : needsAuth cfg r
    · refine ⟨Handler.authGate (resolvedAuths cfg r) (Handler.logging r.pfx r.target base),
        ?_, by simp [mentionsAuthGate, hn]⟩
      rw [← hc]
      simp [hn]
    · refine ⟨Handler.logging r.pfx r.target base, ?_, ?_⟩
      · rw [← hc]; simp [hn]
      · simp only [mentionsAuthGate]
        rw [routeHandler_ok_base hr, eq_comm]
        simpa using hn

theorem compileRoute_ok_of {parseURI : String → Option String} {cfg : Config} {r : Route}
    (hfile : startsWithSlash r.target = true ∨ (parseURI r.target).isSome) :
    ∃ e, compileRoute parseURI cfg r = .ok e := by
  unfold compileRoute routeHandler
  rcases hfile with hs | hp
  · rw [if_pos hs]
    unfold newFileServer
    have hne : r.target ≠ "" := by
      intro hcontr
      rw [hcontr] at hs
      simp [startsWithSlash] at hs
    rw [if_neg (by simpa using hne)]
    exact ⟨_, rfl⟩
  · cases hu : parseURI r.target with
    | none => rw [hu] at hp; simp at hp
    | some u =>
      by_cases hs : startsWithSlash r.target
      · rw [if_pos hs]
        unfold newFileServer
        have hne : r.target ≠ "" := by
          intro hcontr
          rw [hcontr] at hs
          simp [startsWithSlash] at hs
        rw [if_neg (by simpa using hne)]
        exact ⟨_, rfl⟩
      · rw [if_neg hs]
        exact ⟨_, rfl⟩

theorem loop_ok_rooted {parseURI : String → Option String} {cfg : Config} {routes : List Route}
    {regs : List (String × Handler)} {rooted : Bool}
    (h : setupRouterLoop parseURI cfg routes = .ok (regs, rooted)) :
    rooted = routes.any (fun r => r.pfx == "/") := by
  induction routes generalizing regs rooted with
  | nil =>
    unfold setupRouterLoop at h
    simp only [Except.ok.injEq, Prod.mk.injEq] at h
    simp [h.2]
  | cons r rest ih =>
    unfold setupRouterLoop at h
    cases hc : compileRoute parseURI cfg r with
    | error e => rw [hc] at h; exact absurd h (by simp)
    | ok entry =>
      rw [hc] at h
      cases hl : setupRouterLoop parseURI cfg rest with
      | error e => rw [hl] at h; exact absurd h (by simp)
      | ok out =>
        rcases out with ⟨regs0, rooted0⟩
        rw [hl] at h
        simp only [Except.ok.injEq, Prod.mk.injEq] at h
        rw [← h.2, ih hl]
        simp [List.any_cons, Bool.or_comm]

theorem loop_ok_mem {parseURI : String → Option String} {cfg : Config} {routes : List Route}
    {regs : List (String × Handler)} {rooted : Bool}
    (h : setupRouterLoop parseURI cfg routes = .ok (regs, rooted)) :
    ∀ r ∈ routes, ∃ e, compileRoute parseURI cfg r = .ok e ∧ e ∈ regs := by
  induction routes generalizing regs rooted with
  | nil => simp
  | cons r rest ih =>
    unfold setupRouterLoop at h
    cases hc : compileRoute parseURI cfg r with
    | error e => rw [hc] at h; exact absurd h (by simp)
    | ok entry =>
      rw [hc] at h
      cases hl : setupRouterLoop parseURI cfg rest with
      | error e => rw [hl] at h; exact absurd h (by simp)
      | ok out =>
        rcases out with ⟨regs0, rooted0⟩
        rw [hl] at h
        simp only [Except.ok.injEq, Prod.mk.injEq] at h
        intro r' hr'
        rcases List.mem_cons.mp hr' with hr1 | hr1
        · subst hr1
          exact ⟨entry, hc, by rw [← h.1]; exact List.mem_cons_self entry regs0⟩
        · obtain ⟨e, he1, he2⟩ := ih hl r' hr1
          exact ⟨e, he1, by rw [← h.1]; exact List.mem_cons_of_mem entry he2⟩

theorem loop_ok_entries {parseURI : String → Option String} {cfg : Config} {routes : List Route}
    {regs : List (String × Handler)} {rooted : Bool}
    (h : setupRouterLoop parseURI cfg routes = .ok (regs, rooted)) :
    ∀ e ∈ regs, ∃ r ∈ routes, compileRoute parseURI cfg r = .ok e := by
  induction routes generalizing regs rooted with
  | nil =>
    unfold setupRouterLoop at h
    simp only [Except.ok.injEq, Prod.mk.injEq] at h
    rw [← h.1]
    simp
  | cons r rest ih =>
    unfold setupRouterLoop at h
    cases hc : compileRoute parseURI cfg r with
    | error e => rw [hc] at h; exact absurd h (by simp)
    | ok entry =>
      rw [hc] at h
      cases hl : setupRouterLoop parseURI cfg rest with
      | error e => rw [hl] at h; exact absurd h (by simp)
      | ok out =>
        rcases out with ⟨regs0, rooted0⟩
        rw [hl] at h
        simp only [Except.ok.injEq, Prod.mk.injEq] at h
        intro e he
        rw [← h.1] at he
        rcases List.mem_cons.mp he with he1 | he1
        · exact ⟨r, List.mem_cons_self r rest, he1 ▸ hc⟩
        · obtain ⟨r', hr1, hr2⟩ := ih hl e he1
          exact ⟨r', List.mem_cons_of_mem r hr1, hr2⟩

theorem loop_ok_of_all {parseURI : String → Option String} {cfg : Config} {routes : List Route}
    (h : ∀ r ∈ routes, ∃ e, compileRoute parseURI cfg r = .ok e) :
    ∃ out, setupRouterLoop parseURI cfg routes = .ok out := by
  induction routes with
  | nil => exact ⟨([], false), rfl⟩
  | cons r rest ih =>
    obtain ⟨e, he⟩ := h r (List.mem_cons_self r rest)
    obtain ⟨⟨regs0, rooted0⟩, hl⟩ := ih (fun r' hr' => h r' (List.mem_cons_of_mem r hr'))
    refine ⟨(e :: regs0, rooted0 || (r.pfx == "/")), ?_⟩
    unfold setupRouterLoop
    rw [he, hl]

theorem setupRouter_ok_loop {parseURI : String → Option String} {cfg : Config}
    {regs : List (String × Handler)} (h : setupRouter parseURI cfg = .ok regs) :
    ∃ regs0 rooted, setupRouterLoop parseURI cfg cfg.routes = .ok (regs0, rooted) ∧
      regs = regs0 ++ (if rooted then [] else [(("/"), Handler.notFound)]) := by
  unfold setupRouter at h
  cases hl : setupRouterLoop parseURI cfg cfg.routes with
  | error e => rw [hl] at h; exact absurd h (by simp)
  | ok out =>
    rcases out with ⟨regs0, rooted⟩
    rw [hl] at h
    simp only [Except.ok.injEq] at h
    exact ⟨regs0, rooted, rfl, h.symm⟩

/-! Fixtures used by witnesses: concrete instantiations of the external
collaborators (URL parser, hash primitives) and a small configuration. -/

/-- A URL parser that rejects every string (the witnesses below only exercise
filesystem targets). -/
def parseNone : String → Option String := fun _ => none

/-- A URL parser that accepts every string verbatim. -/
def parseAll : String → Option String := fun s => some s

/-- Hash primitives that accept every parse and every password. -/
def allowCrypto : Crypto :=
  { md5Parse := fun h => some { raw := h }
    md5Match := fun _ _ => true
    bcryptOk := fun _ _ => true }

/-- Hash primitives that reject every parse and every password. -/
def noMatchCrypto : Crypto :=
  { md5Parse := fun _ => none
    md5Match := fun _ _ => false
    bcryptOk := fun _ _ => false }

/-- Toy hash primitives: no hash parses as md5, and a bcrypt hash accepts
exactly the password equal to the stored string. -/
def eqCrypto : Crypto :=
  { md5Parse := fun _ => none
    md5Match := fun _ _ => false
    bcryptOk := fun h p => h == p }

/-- A one-route configuration guarded by one credential. -/
def routeO : Route := { pfx := "/o/", target := "/data", authIDs := ["u"] }

/-- The configuration holding routeO. -/
def cfgO : Config :=
  { auths := [("u", { username := "alice", passwordHash := "h" })]
    domain := ""
    routes := [routeO]
    sslKeyPath := ""
    sslCertPath := ""
    letsencryptDir := ""
    httpAddress := ":80"
    httpsAddress := "" }

/-- The registrations setupRouter produces for cfgO. -/
def regsO : List (String × Handler) :=
  [(("/o/"), Handler.stripPfx ("/o/")
      (Handler.authGate [{ username := "alice", passwordHash := "h" }]
        (Handler.logging ("/o/") ("/data") (Handler.file ("/data"))))),
   (("/"), Handler.notFound)]

/-- The anonymous route of the component test: guarded only by the
empty-username credential. -/
def routeAnon : Route := { pfx := "/o/", target := "/data", authIDs := ["anonymous"] }

/-- The configuration of the component test testListDir: one anonymous
credential, one route. -/
def cfgAnon : Config :=
  { auths := [("anonymous", { username := "", passwordHash := "" })]
    domain := ""
    routes := [routeAnon]
    sslKeyPath := ""
    sslCertPath := ""
    letsencryptDir := ""
    httpAddress := ":80"
    httpsAddress := "" }

/-- A static-TLS configuration with an empty HTTPS bind address. -/
def cfgStaticNoHttps : Config :=
  { auths := []
    domain := ""
    routes := []
    sslKeyPath := "key.pem"
    sslCertPath := "cert.pem"
    letsencryptDir := ""
    httpAddress := ":80"
    httpsAddress := "" }

/-- C2: the claim says a configuration with nonempty ssl_cert_path and
ssl_key_path and empty https_address is rejected at validation, yet validate
accepts it: the useSSL expression tests SslKeyPath for emptiness instead of
nonemptiness, making its first disjunct unreachable after the both-or-neither
check, so only letsencrypt mode ever requires an HTTPS address.  The empty
http_address part of the claim does hold, as the last conjunct shows. -/
theorem c2_validate_accepts_static_tls_without_https_address :
    validate cfgStaticNoHttps = none ∧
    cfgStaticNoHttps.sslCertPath ≠ "" ∧
    cfgStaticNoHttps.sslKeyPath ≠ "" ∧
    cfgStaticNoHttps.httpsAddress = "" ∧
    validate { cfgStaticNoHttps with httpAddress := "" } =
      some ("http_address was not specified in cfg") :=
  ⟨rfl, by decide, by decide, rfl, rfl⟩

theorem recordedStatus_no_writeHeader (acts : List WAction)
    (h : ∀ c, WAction.writeHeader c ∉ acts) : recordedStatus acts = 0 := by
  unfold recordedStatus
  suffices hgen : ∀ init : Nat,
      acts.foldl
        (fun st a =>
          match a with
          | WAction.writeHeader c => c
          | WAction.write _ => st)
        init = init from hgen 0
  induction acts with
  | nil => intro init; rfl
  | cons a rest ih =>
    intro init
    cases a with
    | writeHeader c => exact absurd (List.mem_cons_self _ rest) (h c)
    | write b =>
      rw [List.foldl_cons]
      exact ih (fun c hc => h c (List.mem_cons_of_mem _ hc)) init

/-- C10: when the wrapped handler never calls WriteHeader, the access-log
record carries status_code 0, not 200, because the intercepting response
writer starts at 0 and is updated only by explicit WriteHeader calls. -/
theorem c10_status_zero_without_writeHeader (pfx target : String) (acts : List WAction)
    (h : ∀ c, WAction.writeHeader c ∉ acts) :
    (loggingServe pfx target acts).statusCode = 0 ∧
    (loggingServe pfx target acts).statusCode ≠ 200 := by
  have h0 : (loggingServe pfx target acts).statusCode = 0 :=
    recordedStatus_no_writeHeader acts h
  exact ⟨h0, by rw [h0]; exact (by decide)⟩

/-- Witness for C10 at a handler that writes a body but never a status. -/
theorem c10_witness :
    (loggingServe ("/o/") ("/data") [WAction.write ("hello")]).statusCode = 0 ∧
    (loggingServe ("/o/") ("/data") [WAction.write ("hello")]).statusCode ≠ 200 :=
  c10_status_zero_without_writeHeader ("/o/") ("/data") [WAction.write ("hello")]
    (by intro c hc; simp at hc)

theorem splitOnChar_headD_takeWhile (sep : Char) (l : List Char) :
    (splitOnChar sep l).headD [] = l.takeWhile (fun c => c != sep) := by
  induction l with
  | nil => simp [splitOnChar]
  | cons c cs ih =>
    by_cases h : c = sep
    · subst h
      rw [splitOnChar_cons_sep]
      simp [List.takeWhile_cons]
    · rcases hh : splitOnChar sep cs with _ | ⟨s0, r0⟩
      · exact absurd hh (splitOnChar_ne_nil sep cs)
      · rw [splitOnChar_cons_ne sep c cs h s0 r0 hh]
        rw [hh] at ih
        simp only [List.headD_cons] at ih ⊢
        simp [List.takeWhile_cons, h, ← ih]

/-- C9: the redirect responder answers every request with a permanent redirect
(status 301) whose destination is logged: for a bare-port HTTPS address the
destination is the request host up to its first colon followed by the
configured port and the original request URI, otherwise the configured address
taken literally followed by the original request URI. -/
theorem c9_redirect_url (addr host uri : String) :
    (redirectServe addr host uri).status = 301 ∧
    (redirectServe addr host uri).loggedURL = (redirectServe addr host uri).redirectionURL ∧
    (startsWithColon addr = true →
      (redirectServe addr host uri).redirectionURL =
        ("https://") ++ (⟨host.data.takeWhile (fun c => c != ':')⟩ : String) ++ addr ++ uri) ∧
    (startsWithColon addr = false →
      (redirectServe addr host uri).redirectionURL = ("https://") ++ addr ++ uri) := by
  have hhost : hostPart host = (⟨host.data.takeWhile (fun c => c != ':')⟩ : String) := by
    unfold hostPart
    rw [splitOnChar_headD_takeWhile]
  by_cases h : startsWithColon addr
  · refine ⟨rfl, ?_, fun _ => ?_, fun hc => absurd h (by simp [hc])⟩
    · unfold redirectServe
      rw [if_pos h]
    · unfold redirectServe
      rw [if_pos h, hhost]
  · have hf : startsWithColon addr = false := by simpa using h
    refine ⟨rfl, ?_, fun hc => absurd hc (by simp [hf]), fun _ => ?_⟩
    · unfold redirectServe
      rw [if_neg h]
    · unfold redirectServe
      rw [if_neg h]

/-- Witness for C9 at the bare-port address of the scenario in the spec. -/
theorem c9_witness :
    (redirectServe (":443") ("example.com") ("/x")).status = 301 ∧
    (redirectServe (":443") ("example.com") ("/x")).redirectionURL =
      ("https://example.com:443/x") := by
  have h := c9_redirect_url (":443") ("example.com") ("/x")
  refine ⟨h.1, ?_⟩
  rw [h.2.2.1 (by decide)]
  decide

theorem candidateOk_eq (cr : Crypto) (u p : String) (a : Auth) :
    candidateOk cr u p a =
      ((u == a.username) &&
        (match acceptMd5 cr a.passwordHash with
          | .error _ => false
          | .ok (some m) => cr.md5Match m p
          | .ok none => cr.bcryptOk a.passwordHash p)) := by
  unfold candidateOk acceptMd5
  by_cases hm : isApr1 a.passwordHash
  · simp only [if_pos hm]
    cases hp : cr.md5Parse a.passwordHash <;> simp
  · simp only [if_neg hm]

theorem authLoop_cons (cr : Crypto) (u p : String) (a : Auth) (rest : List Auth) :
    authLoop cr u p (a :: rest) = (candidateOk cr u p a || authLoop cr u p rest) := by
  have hstep : authLoop cr u p (a :: rest) =
      (if u != a.username then authLoop cr u p rest
       else
         match acceptMd5 cr a.passwordHash with
         | .error _ => authLoop cr u p rest
         | .ok (some m) => if cr.md5Match m p then true else authLoop cr u p rest
         | .ok none => if cr.bcryptOk a.passwordHash p then true else authLoop cr u p rest) :=
    rfl
  rw [hstep, candidateOk_eq]
  by_cases hu : u = a.username
  · have hbeq : (u == a.username) = true := by simpa using hu
    rw [if_neg (by simp [hu])]
    rw [hbeq, Bool.true_and]
    cases hacc : acceptMd5 cr a.passwordHash with
    | error e => simp
    | ok o =>
      cases o with
      | some m => cases hmm : cr.md5Match m p <;> simp [hmm]
      | none => cases hb : cr.bcryptOk a.passwordHash p <;> simp [hb]
  · rw [if_pos (by simpa using hu)]
    have : (u == a.username) = false := by simpa using hu
    simp [this]

theorem authLoop_eq_any (cr : Crypto) (u p : String) (auths : List Auth) :
    authLoop cr u p auths = auths.any (candidateOk cr u p) := by
  induction auths with
  | nil => rfl
  | cons a rest ih => rw [authLoop_cons, List.any_cons, ih]

/-- C5: the credential loop grants exactly when some candidate has an equal
username and a password verifying under the scheme its hash marker selects;
it stops at the first success; and a hash that fails to parse makes its
candidate fail without aborting the scan of the remaining candidates. -/
theorem c5_verification_semantics (cr : Crypto) (u p : String) :
    (∀ auths : List Auth,
      authLoop cr u p auths = true ↔ ∃ a ∈ auths, candidateOk cr u p a = true) ∧
    (∀ (a : Auth) (rest : List Auth), candidateOk cr u p a = true →
      authLoop cr u p (a :: rest) = true) ∧
    (∀ (a : Auth) (rest : List Auth), isApr1 a.passwordHash = true →
      cr.md5Parse a.passwordHash = none →
      authLoop cr u p (a :: rest) = authLoop cr u p rest) := by
  refine ⟨fun auths => ?_, fun a rest hc => ?_, fun a rest h1 h2 => ?_⟩
  · rw [authLoop_eq_any]
    exact List.any_eq_true
  · rw [authLoop_cons, hc]
    rfl
  · have hc : candidateOk cr u p a = false := by
      unfold candidateOk
      rw [if_pos h1, h2]
      simp
    rw [authLoop_cons, hc]
    rfl

/-- Witness for C5 with toy hash primitives: a matching bcrypt credential is
granted, and a candidate with an unparsable md5 hash is skipped in favour of
the next candidate. -/
theorem c5_witness :
    (authLoop eqCrypto ("alice") ("pw") [{ username := "alice", passwordHash := "pw" }] = true ↔
      ∃ a ∈ [{ username := "alice", passwordHash := "pw" }],
        candidateOk eqCrypto ("alice") ("pw") a = true) ∧
    authLoop eqCrypto ("alice") ("pw")
      ({ username := "alice", passwordHash := "pw" } :: []) = true ∧
    authLoop eqCrypto ("alice") ("pw")
      ({ username := "alice", passwordHash := "$apr1$x" } ::
        [{ username := "alice", passwordHash := "pw" }]) =
      authLoop eqCrypto ("alice") ("pw") [{ username := "alice", passwordHash := "pw" }] := by
  have h := c5_verification_semantics eqCrypto ("alice") ("pw")
  exact ⟨h.1 _, h.2.1 _ _ (by decide), h.2.2 _ _ (by decide) rfl⟩

/-- C4: through the auth decorator, the wrapped handler runs exactly when
basic credentials are present and accepted; any request that does not reach
the wrapped handler is answered 401 with the challenge header and an
error-bearing log record. -/
theorem c4_authGate_behavior (cr : Crypto) (auths : List Auth)
    (basic : Option (String × String)) :
    ((authServe cr auths basic).invoked = true ↔
      ∃ u p, basic = some (u, p) ∧ authLoop cr u p auths = true) ∧
    ((authServe cr auths basic).invoked = false →
      (authServe cr auths basic).status = some 401 ∧
      (authServe cr auths basic).challenge = true ∧
      (authServe cr auths basic).loggedError.isSome) := by
  cases basic with
  | none =>
    constructor
    · constructor
      · intro hcontr
        exact absurd hcontr (by simp [authServe])
      · rintro ⟨u, p, hup, -⟩
        exact absurd hup (by simp)
    · intro _
      exact ⟨rfl, rfl, rfl⟩
  | some up =>
    rcases up with ⟨u, p⟩
    by_cases h : authLoop cr u p auths
    · constructor
      · constructor
        · intro _
          exact ⟨u, p, rfl, h⟩
        · intro _
          simp [authServe, h]
      · intro hcontr
        rw [show (authServe cr auths (some (u, p))).invoked = true by simp [authServe, h]]
          at hcontr
        exact absurd hcontr (by simp)
    · have hf : authLoop cr u p auths = false := by simpa using h
      constructor
      · constructor
        · intro hcontr
          rw [show (authServe cr auths (some (u, p))).invoked = false by
            simp [authServe, hf]] at hcontr
          exact absurd hcontr (by simp)
        · rintro ⟨u', p', hup, hloop⟩
          simp only [Option.some.injEq, Prod.mk.injEq] at hup
          obtain ⟨hu, hp⟩ := hup
          subst hu
          subst hp
          exact absurd hloop (by simp [hf])
      · intro _
        refine ⟨?_, ?_, ?_⟩ <;> simp [authServe, hf]

/-- Witness for C4: a request without basic credentials is rejected with the
challenge and the wrapped handler is not invoked. -/
theorem c4_witness :
    (authServe noMatchCrypto [] none).invoked = false ∧
    (authServe noMatchCrypto [] none).status = some 401 ∧
    (authServe noMatchCrypto [] none).challenge = true ∧
    (authServe noMatchCrypto [] none).loggedError.isSome := by
  have h := c4_authGate_behavior noMatchCrypto [] none
  have hinv : (authServe noMatchCrypto [] none).invoked = false := by decide
  obtain ⟨h1, h2, h3⟩ := h.2 hinv
  exact ⟨hinv, h1, h2, h3⟩

/-- Counterexample for C1: even with hash primitives that accept every parse
and every password, the credential loop rejects the submitted pair (bob, pw)
against a configured credential whose username is empty, because the loop
compares usernames first and has no empty-username early grant: the
empty-username credential does not grant unconditionally. -/
theorem c1_counterexample :
    authLoop allowCrypto ("bob") ("pw") [{ username := "", passwordHash := "h" }] = false := by
  decide

/-- C1 amended: the allow-all effect of an empty-username credential is
decided at route-build time, not inside credential verification: a route all
of whose resolved credentials have empty usernames is compiled without the
auth decorator (so every request is granted with no hash comparison), while
inside the per-request loop an empty-username credential is simply skipped
whenever the submitted username is nonempty. -/
theorem c1_amended_allow_all (parseURI : String → Option String) (cr : Crypto)
    (cfg : Config) (r : Route) (u p hash : String) (rest : List Auth) :
    ((∀ a ∈ resolvedAuths cfg r, a.username = "") →
      needsAuth cfg r = false ∧
      ∀ e, compileRoute parseURI cfg r = .ok e → mentionsAuthGate e.2 = false) ∧
    (u ≠ "" →
      authLoop cr u p ({ username := "", passwordHash := hash } :: rest) =
        authLoop cr u p rest) := by
  constructor
  · intro hall
    have hna : needsAuth cfg r = false := by
      unfold needsAuth
      rw [List.any_eq_false]
      intro a ha
      simp [hall a ha]
    refine ⟨hna, fun e he => ?_⟩
    obtain ⟨hh, he1, he2⟩ := compileRoute_ok_shape he
    rw [he1]
    show mentionsAuthGate hh = false
    rw [he2, hna]
  · intro hu
    rw [authLoop_cons]
    have hne : (u == ("" : String)) = false := by simpa using hu
    rw [candidateOk_eq]
    simp [hne]

/-- Witness for the amended C1: the anonymous-only route of the component
test is compiled without the auth decorator, and the loop skips the
empty-username credential for the submitted username bob. -/
theorem c1_amended_witness :
    needsAuth cfgAnon routeAnon = false ∧
    authLoop allowCrypto ("bob") ("pw")
      ({ username := "", passwordHash := "h" } :: []) =
      authLoop allowCrypto ("bob") ("pw") [] := by
  have h := c1_amended_allow_all parseNone allowCrypto cfgAnon routeAnon ("bob") ("pw") ("h") []
  exact ⟨(h.1 (by decide)).1, h.2 (by decide)⟩

/-- Sanity evaluation: the classic traversal request against a configured
root resolves inside the root, matching what Go computes. -/
theorem fileServerPath_sample :
    fileServerPath ("/srv/www") ("../../etc/passwd") = ("/srv/www/etc/passwd") := by
  decide

/-- C3: directory-traversal containment.  For every request path, the
filesystem path the file server opens is the cleaned configured root extended
by segments among which none is empty, a dot or a double dot: cleaning the
slash-rooted request path removes every double dot before the join, so no
request reaches outside the root.  The hypothesis records that a static-route
root always carries a leading slash (setupRouter selects the file server
exactly for such targets). -/
theorem c3_fileServer_containment (root p : String)
    (_hroot : startsWithSlash root = true) :
    ∃ rest : List Seg,
      (∀ s ∈ rest, s ≠ [] ∧ s ≠ ['.'] ∧ s ≠ ['.', '.']) ∧
      fileServerPath root p = renderRooted (cleanSegs (segsOf root) ++ rest) := by
  refine ⟨cleanSegs (segsOf (if startsWithSlash p then p else ("/") ++ p)), ?_,
    fileServerPath_eq root p⟩
  intro s hs
  have h := goodSeg_cleanSegs _ s hs
  exact ⟨h.1, h.2.1, h.2.2.1⟩

/-- Witness for C3 at a traversal request against a concrete root. -/
theorem c3_containment_witness :
    startsWithSlash ("/srv/www") = true ∧
    ∃ rest : List Seg,
      (∀ s ∈ rest, s ≠ [] ∧ s ≠ ['.'] ∧ s ≠ ['.', '.']) ∧
      fileServerPath ("/srv/www") ("../../etc/passwd") =
        renderRooted (cleanSegs (segsOf ("/srv/www")) ++ rest) :=
  ⟨by decide, c3_fileServer_containment ("/srv/www") ("../../etc/passwd") (by decide)⟩

/-- C6: the router registers the not-found fallback (which answers 404 and
logs the miss) at the root pattern exactly when no configured route has the
root prefix; a route claiming the root prefix owns the root registration, and
its presence does not obstruct a successful build. -/
theorem c6_root_fallback (parseURI : String → Option String) (cfg : Config) :
    notFoundServe = { status := 404, loggedError := some ("not found") } ∧
    (∀ regs, setupRouter parseURI cfg = .ok regs →
      (((("/"), Handler.notFound) ∈ regs) ↔ ∀ r ∈ cfg.routes, r.pfx ≠ "/") ∧
      (∀ r ∈ cfg.routes, r.pfx = "/" →
        ∃ hh, (("/"), Handler.stripPfx ("/") hh) ∈ regs)) ∧
    ((∀ r ∈ cfg.routes, ∃ e, compileRoute parseURI cfg r = .ok e) →
      ∃ regs, setupRouter parseURI cfg = .ok regs) := by
  refine ⟨rfl, fun regs hok => ?_, fun hall => ?_⟩
  · obtain ⟨regs0, rooted, hl, hregs⟩ := setupRouter_ok_loop hok
    have hrooted := loop_ok_rooted hl
    have hnotin : (("/"), Handler.notFound) ∉ regs0 := by
      intro hmem
      obtain ⟨r, _, hr⟩ := loop_ok_entries hl _ hmem
      obtain ⟨hh, he, -⟩ := compileRoute_ok_shape hr
      exact absurd (congrArg Prod.snd he) (by simp)
    constructor
    · constructor
      · intro hmem
        rw [hregs] at hmem
        rcases List.mem_append.mp hmem with hmem1 | hmem1
        · exact absurd hmem1 hnotin
        · have hfalse : rooted = false := by
            by_contra hcontr
            have : rooted = true := by simpa using hcontr
            rw [this] at hmem1
            simp at hmem1
          rw [hfalse] at hrooted
          intro r hr
          have := (List.any_eq_false.mp hrooted.symm) r hr
          simpa using this
      · intro hnone
        have hfalse : rooted = false := by
          rw [hrooted, List.any_eq_false]
          intro r hr
          simpa using hnone r hr
        rw [hregs, hfalse]
        simp
    · intro r hr hpfx
      obtain ⟨e, he, hmem⟩ := loop_ok_mem hl r hr
      obtain ⟨hh, he1, -⟩ := compileRoute_ok_shape he
      refine ⟨hh, ?_⟩
      rw [hregs]
      apply List.mem_append_left
      rw [← hpfx]
      rw [he1] at hmem
      exact hmem
  · obtain ⟨⟨regs0, rooted⟩, hl⟩ := loop_ok_of_all hall
    refine ⟨regs0 ++ (if rooted then [] else [(("/"), Handler.notFound)]), ?_⟩
    unfold setupRouter
    rw [hl]

/-- Witness for C6 at the one-route configuration: the fallback is present
because no route claims the root, and the build succeeds. -/
theorem c6_witness :
    ((((("/"), Handler.notFound) ∈ regsO) ↔ ∀ r ∈ cfgO.routes, r.pfx ≠ "/")) ∧
    (∃ regs, setupRouter parseNone cfgO = .ok regs) := by
  have h := c6_root_fallback parseNone cfgO
  refine ⟨(h.2.1 regsO (by rfl)).1, h.2.2 ?_⟩
  intro r hr
  have hr' : r = routeO := by
    have : r ∈ [routeO] := hr
    simpa using this
  subst hr'
  exact ⟨_, rfl⟩

/-- C7: the dispatch kind is decided by the target string alone: a leading
slash selects the file server rooted at the target, otherwise a successful
request-URI parse selects the single-host proxy, and a target matching
neither form yields the descriptive configuration error, which makes the
whole router build fail. -/
theorem c7_dispatch_kind (parseURI : String → Option String) (cfg : Config) (r : Route) :
    (startsWithSlash r.target = true →
      routeHandler parseURI r = .ok (Handler.file r.target)) ∧
    (startsWithSlash r.target = false → ∀ u, parseURI r.target = some u →
      routeHandler parseURI r = .ok (Handler.proxy u)) ∧
    (startsWithSlash r.target = false → parseURI r.target = none →
      routeHandler parseURI r =
        .error ("does not know how to handle the Route: " ++ r.target)) ∧
    ((∃ rr ∈ cfg.routes, startsWithSlash rr.target = false ∧ parseURI rr.target = none) →
      ∀ regs, setupRouter parseURI cfg ≠ .ok regs) := by
  have herr : startsWithSlash r.target = false → parseURI r.target = none →
      routeHandler parseURI r =
        .error ("does not know how to handle the Route: " ++ r.target) := by
    intro hs hp
    unfold routeHandler
    rw [if_neg (by simp [hs]), hp]
  refine ⟨fun hs => ?_, fun hs u hu => ?_, herr, fun hbad regs hok => ?_⟩
  · unfold routeHandler newFileServer
    rw [if_pos hs]
    have hne : r.target ≠ "" := by
      intro hcontr
      rw [hcontr] at hs
      exact absurd hs (by decide)
    rw [if_neg (by simpa using hne)]
  · unfold routeHandler
    rw [if_neg (by simp [hs]), hu]
  · obtain ⟨rr, hrr, hs, hp⟩ := hbad
    obtain ⟨regs0, rooted, hl, -⟩ := setupRouter_ok_loop hok
    obtain ⟨e, he, -⟩ := loop_ok_mem hl rr hrr
    have : routeHandler parseURI rr =
        .error ("does not know how to handle the Route: " ++ rr.target) := by
      unfold routeHandler
      rw [if_neg (by simp [hs]), hp]
    unfold compileRoute at he
    rw [this] at he
    exact absurd he (by simp)

/-- Witness for C7: a slash-led target compiles to the file server, a target
the URI parser accepts compiles to the proxy, and a target matching neither
form fails the whole build. -/
theorem c7_witness :
    routeHandler parseNone routeO = .ok (Handler.file ("/data")) ∧
    routeHandler parseAll { pfx := "/p/", target := "http://u", authIDs := [] } =
      .ok (Handler.proxy ("http://u")) ∧
    routeHandler parseNone { pfx := "/b/", target := "bad", authIDs := [] } =
      .error ("does not know how to handle the Route: " ++ ("bad")) ∧
    ∀ regs,
      setupRouter parseNone
        { cfgO with routes := [{ pfx := "/b/", target := "bad", authIDs := [] }] } ≠
      .ok regs := by
  refine ⟨(c7_dispatch_kind parseNone cfgO routeO).1 (by decide),
    (c7_dispatch_kind parseAll cfgO { pfx := "/p/", target := "http://u", authIDs := [] }).2.1
      (by decide) ("http://u") rfl,
    (c7_dispatch_kind parseNone cfgO { pfx := "/b/", target := "bad", authIDs := [] }).2.2.1
      (by decide) rfl,
    (c7_dispatch_kind parseNone
        { cfgO with routes := [{ pfx := "/b/", target := "bad", authIDs := [] }] }
        routeO).2.2.2
      ⟨{ pfx := "/b/", target := "bad", authIDs := [] }, by simp, by decide, rfl⟩⟩

/-- C8: the chain of a compiled route contains the auth decorator exactly when some
credential resolved from its auth identifiers has a nonempty username; in
particular a route with no identifiers, or only empty-username credentials,
is registered without any credential challenge in its chain. -/
theorem c8_auth_decorator_iff (parseURI : String → Option String) (cfg : Config)
    (regs : List (String × Handler)) (h : setupRouter parseURI cfg = .ok regs) :
    ∀ r ∈ cfg.routes, ∃ hh,
      compileRoute parseURI cfg r = .ok (r.pfx, Handler.stripPfx r.pfx hh) ∧
      (r.pfx, Handler.stripPfx r.pfx hh) ∈ regs ∧
      (mentionsAuthGate hh = true ↔ ∃ a ∈ resolvedAuths cfg r, a.username ≠ "") := by
  intro r hr
  obtain ⟨regs0, rooted, hl, hregs⟩ := setupRouter_ok_loop h
  obtain ⟨e, he, hmem⟩ := loop_ok_mem hl r hr
  obtain ⟨hh, he1, he2⟩ := compileRoute_ok_shape he
  refine ⟨hh, by rw [← he1]; exact he, ?_, ?_⟩
  · rw [hregs]
    apply List.mem_append_left
    rw [he1] at hmem
    exact hmem
  · rw [he2]
    unfold needsAuth
    rw [List.any_eq_true]
    constructor
    · rintro ⟨a, ha1, ha2⟩
      exact ⟨a, ha1, by simpa using ha2⟩
    · rintro ⟨a, ha1, ha2⟩
      exact ⟨a, ha1, by simpa using ha2⟩

/-- Witness for C8: the guarded route of cfgO is compiled with the auth
decorator because its credential has the nonempty username alice. -/
theorem c8_witness :
    ∃ hh,
      compileRoute parseNone cfgO routeO = .ok (routeO.pfx, Handler.stripPfx routeO.pfx hh) ∧
      (routeO.pfx, Handler.stripPfx routeO.pfx hh) ∈ regsO ∧
      (mentionsAuthGate hh = true ↔ ∃ a ∈ resolvedAuths cfgO routeO, a.username ≠ "") :=
  c8_auth_decorator_iff parseNone cfgO regsO (by rfl) routeO (by
    show routeO ∈ [routeO]
    simp)

end Revproxyry
